import Mathlib

/-
Shallow embedding of src/server.js (a room-scoped WebSocket relay).

The registry `activeRooms` is a Map from room identifier to a Set of
connections; it is modelled as an association list in insertion order,
member sets as duplicate-free lists in insertion order.  A connection
carries the transport attributes the handlers inspect: `readyState`
(compared against WebSocket.OPEN = 1) and whether a `send` on it succeeds
or throws (`sendOk`).  Messages are opaque: a frame-type flag (text vs
binary) and a byte list, never parsed by the server.

The source imports the WebSocketServer named export, which exists only in
ws >= 8.  In ws 8 the message event supplies (data, isBinary): `data` is a
Buffer holding the payload bytes for text and binary frames alike, and the
frame type arrives only in the `isBinary` parameter, which the handler does
not bind (`ws.on("message", (message) => ...)`).  `otherWs.send(data)`
defaults its binary option to true for non-string data, so every forwarded
frame is a binary frame carrying the inbound bytes, whatever the inbound
frame type was.
-/

namespace WsRelay

/-- The readyState value of an open transport: WebSocket.OPEN = 1 in the ws
library. -/
def WebSocket.OPEN : Nat := 1

/-- One live transport-level session: an opaque identifier assigned at accept
time, the transport readyState, and whether a send on this transport succeeds
(`sendOk = false` models a send that throws). -/
structure Conn where
  id : Nat
  readyState : Nat
  sendOk : Bool
deriving DecidableEq, Repr

/-- An opaque relay message: frame type (binary vs text) and payload bytes. -/
structure Msg where
  isBinary : Bool
  payload : List Nat
deriving DecidableEq, Repr

/-- The `activeRooms` Map: room identifier to member set, entries in insertion
order. -/
abbrev Registry := List (String × List Conn)

/-- activeRooms.get(roomId): the value stored at the key, if present. -/
def mapGet : Registry → String → Option (List Conn)
  | [], _ => none
  | p :: rest, k => if p.1 = k then some p.2 else mapGet rest k

/-- activeRooms.set(roomId, v): update in place if the key is present,
otherwise append a new entry. -/
def mapSet : Registry → String → List Conn → Registry
  | [], k, v => [(k, v)]
  | p :: rest, k, v => if p.1 = k then (k, v) :: rest else p :: mapSet rest k v

/-- activeRooms.delete(roomId): remove the entry at the key; no-op when the
key is absent. -/
def mapDelete : Registry → String → Registry
  | [], _ => []
  | p :: rest, k => if p.1 = k then mapDelete rest k else p :: mapDelete rest k

/-- The member set of a room, empty when the room is absent (the code uses
`activeRooms.get(roomId) || new Set()` and `if (roomConnections)` guards). -/
def members (reg : Registry) (roomId : String) : List Conn :=
  (mapGet reg roomId).getD []

/-- Set.prototype.add: append unless already a member. -/
def addConn (ms : List Conn) (c : Conn) : List Conn :=
  if c ∈ ms then ms else ms ++ [c]

/-- server.js lines 149-153: `if (!activeRooms.has(roomId))
activeRooms.set(roomId, new Set()); activeRooms.get(roomId).add(ws)`. -/
def bind (reg : Registry) (roomId : String) (c : Conn) : Registry :=
  match mapGet reg roomId with
  | none => mapSet reg roomId (addConn [] c)
  | some ms => mapSet reg roomId (addConn ms c)

/-- server.js line 136: `const roomId = url.pathname.slice(1)` — everything
after the leading slash of the target path. -/
def extractRoomId (pathname : String) : String :=
  pathname.drop 1

/-- The connection handler (server.js lines 133-153): extract the room id; if
it is empty, close the socket with code 1008 and reason "Room ID required" and
leave the registry untouched; otherwise bind the connection to the room.
Returns the registry afterwards and the close action taken, if any. -/
def onConnection (reg : Registry) (pathname : String) (c : Conn) :
    Registry × Option (Nat × String) :=
  let roomId := extractRoomId pathname
  if roomId.isEmpty then
    (reg, some (1008, "Room ID required"))
  else
    (bind reg roomId c, none)

/-- The frame a recipient receives when the handler calls
`otherWs.send(message)`: `message` is the Buffer ws 8 delivered, and send
defaults its binary option to true for non-string data, so the outgoing
frame is a binary frame carrying the inbound payload bytes — the inbound
frame type (the ignored isBinary parameter) is not consulted. -/
def sentFrame (m : Msg) : Msg :=
  { isBinary := true, payload := m.payload }

/-- The broadcast loop of the message handler (server.js lines 175-180):
iterate the member set in insertion order and send the message Buffer to
every member other than the sender whose readyState is OPEN; each such send
produces the frame `sentFrame m`.  There is no try/catch around
`otherWs.send`, so a send that throws propagates out of the forEach callback
and aborts the remaining iterations.  Returns the deliveries performed, in
order, and whether an exception escaped the loop. -/
def forwardLoop (sender : Conn) (m : Msg) : List Conn → List (Conn × Msg) × Bool
  | [] => ([], false)
  | c :: rest =>
    if c ≠ sender ∧ c.readyState = WebSocket.OPEN then
      if c.sendOk then
        ((c, sentFrame m) :: (forwardLoop sender m rest).1, (forwardLoop sender m rest).2)
      else
        ([], true)
    else
      forwardLoop sender m rest

/-- The message handler (server.js lines 166-185): look up the sender's room
and forward the message to the other members; the handler never writes the
registry.  Returns the registry afterwards, the deliveries and whether an
exception escaped. -/
def onMessage (reg : Registry) (roomId : String) (sender : Conn) (m : Msg) :
    Registry × (List (Conn × Msg) × Bool) :=
  match mapGet reg roomId with
  | none => (reg, ([], false))
  | some ms => (reg, forwardLoop sender m ms)

/-- The close handler (server.js lines 188-204): remove the connection from
its room's member set and delete the room entry once the set is empty; no-op
when the room is already gone. -/
def unbind (reg : Registry) (roomId : String) (c : Conn) : Registry :=
  match mapGet reg roomId with
  | none => reg
  | some ms =>
    let ms2 := ms.erase c
    if ms2.isEmpty then
      mapDelete reg roomId
    else
      mapSet reg roomId ms2

/-- The JSON body of the 200 response of POST /api/rooms/:roomId/end. -/
structure EndSummary where
  success : Bool
  notifiedClients : Nat
  closedClients : Nat
  totalClients : Nat
deriving DecidableEq, Repr

/-- The notification loop of the end-room endpoint (server.js lines 55-95):
walk the member set left to right carrying (sentCount, closedCount); an open
member whose send succeeds bumps sentCount, an open member whose send throws
is caught and counted in neither, a non-open member bumps closedCount. -/
def endRoomLoop (acc : Nat × Nat) : List Conn → Nat × Nat
  | [] => acc
  | c :: rest =>
    if c.readyState = WebSocket.OPEN then
      if c.sendOk then
        endRoomLoop (acc.1 + 1, acc.2) rest
      else
        endRoomLoop acc rest
    else
      endRoomLoop (acc.1, acc.2 + 1) rest

/-- The POST /api/rooms/:roomId/end handler (server.js lines 35-116): snapshot
the member set (empty when the room is unknown), notify, delete the room
entry, and answer with the counts; totalClients is the snapshot's size (the
Set object survives the map deletion). -/
def endRoom (reg : Registry) (roomId : String) : Registry × EndSummary :=
  let roomConnections := (mapGet reg roomId).getD []
  let counts := endRoomLoop (0, 0) roomConnections
  (mapDelete reg roomId,
    { success := true
      notifiedClients := counts.1
      closedClients := counts.2
      totalClients := roomConnections.length })

/-- The GET /health handler (server.js lines 119-125): report
activeRooms.size; it only reads the registry. -/
def healthCheck (reg : Registry) : Registry × Nat :=
  (reg, reg.length)

/-- The externally driven events that reach the registry. -/
inductive Event where
  | connect (pathname : String) (c : Conn)
  | message (roomId : String) (sender : Conn) (m : Msg)
  | close (roomId : String) (c : Conn)
  | endReq (roomId : String)
  | health
deriving DecidableEq, Repr

/-- The registry effect of one event. -/
def step (reg : Registry) : Event → Registry
  | .connect pathname c => (onConnection reg pathname c).1
  | .message roomId sender m => (onMessage reg roomId sender m).1
  | .close roomId c => unbind reg roomId c
  | .endReq roomId => (endRoom reg roomId).1
  | .health => (healthCheck reg).1

/-- The registry reached from process start (an empty Map) by a sequence of
events. -/
def run (es : List Event) : Registry :=
  es.foldl step []

/-- No room entry has an empty member set. -/
def NoEmptyRooms (reg : Registry) : Prop :=
  ∀ p ∈ reg, p.2 ≠ []

/-! Basic lemmas about the Map operations. -/

theorem mapGet_mapDelete (reg : Registry) (k : String) :
    mapGet (mapDelete reg k) k = none := by
  induction reg with
  | nil => rfl
  | cons p rest ih =>
    by_cases h : p.1 = k
    · simp [mapDelete, h, ih]
    · simp [mapDelete, mapGet, h, ih]

theorem mapDelete_of_absent (reg : Registry) (k : String)
    (h : mapGet reg k = none) : mapDelete reg k = reg := by
  induction reg with
  | nil => rfl
  | cons p rest ih =>
    by_cases h1 : p.1 = k
    · simp [mapGet, h1] at h
    · simp only [mapGet, if_neg h1] at h
      simp [mapDelete, h1, ih h]

theorem mapGet_mapSet_self (reg : Registry) (k : String) (v : List Conn) :
    mapGet (mapSet reg k v) k = some v := by
  induction reg with
  | nil => simp [mapSet, mapGet]
  | cons p rest ih =>
    by_cases h : p.1 = k
    · simp [mapSet, h, mapGet]
    · simp [mapSet, mapGet, h, ih]

theorem mem_of_mem_mapSet (reg : Registry) (k : String) (v : List Conn)
    (p : String × List Conn) (hp : p ∈ mapSet reg k v) : p ∈ reg ∨ p = (k, v) := by
  induction reg with
  | nil => simp [mapSet] at hp; simp [hp]
  | cons q rest ih =>
    by_cases h : q.1 = k
    · simp only [mapSet, if_pos h] at hp
      rcases List.mem_cons.mp hp with h2 | h2
      · exact Or.inr h2
      · exact Or.inl (List.mem_cons_of_mem _ h2)
    · simp only [mapSet, if_neg h] at hp
      rcases List.mem_cons.mp hp with h2 | h2
      · exact Or.inl (h2 ▸ List.mem_cons_self _ _)
      · rcases ih h2 with h3 | h3
        · exact Or.inl (List.mem_cons_of_mem _ h3)
        · exact Or.inr h3

theorem mem_of_mem_mapDelete (reg : Registry) (k : String)
    (p : String × List Conn) (hp : p ∈ mapDelete reg k) : p ∈ reg := by
  induction reg with
  | nil => simp [mapDelete] at hp
  | cons q rest ih =>
    by_cases h : q.1 = k
    · simp only [mapDelete, if_pos h] at hp
      exact List.mem_cons_of_mem _ (ih hp)
    · simp only [mapDelete, if_neg h] at hp
      rcases List.mem_cons.mp hp with h2 | h2
      · exact h2 ▸ List.mem_cons_self _ _
      · exact List.mem_cons_of_mem _ (ih h2)

theorem addConn_ne_nil (ms : List Conn) (c : Conn) : addConn ms c ≠ [] := by
  unfold addConn
  by_cases h : c ∈ ms
  · simp only [if_pos h]
    exact List.ne_nil_of_mem h
  · simp [if_neg h]

theorem mem_addConn_self (ms : List Conn) (c : Conn) : c ∈ addConn ms c := by
  unfold addConn
  by_cases h : c ∈ ms
  · simpa [if_pos h] using h
  · simp [if_neg h]

theorem onMessage_fst (reg : Registry) (roomId : String) (sender : Conn) (m : Msg) :
    (onMessage reg roomId sender m).1 = reg := by
  cases hm : mapGet reg roomId <;> simp [onMessage, hm]

theorem mem_members_bind (reg : Registry) (r : String) (c : Conn) :
    c ∈ members (bind reg r c) r := by
  unfold bind
  cases hm : mapGet reg r with
  | none =>
    simp only [members, mapGet_mapSet_self, Option.getD_some]
    exact mem_addConn_self [] c
  | some ms =>
    simp only [members, mapGet_mapSet_self, Option.getD_some]
    exact mem_addConn_self ms c

/-! Preservation of the no-empty-room invariant by every handler. -/

theorem noEmptyRooms_mapSet (reg : Registry) (k : String) (v : List Conn)
    (hreg : NoEmptyRooms reg) (hv : v ≠ []) : NoEmptyRooms (mapSet reg k v) := by
  intro p hp
  rcases mem_of_mem_mapSet reg k v p hp with h | h
  · exact hreg p h
  · rw [h]; exact hv

theorem noEmptyRooms_mapDelete (reg : Registry) (k : String)
    (hreg : NoEmptyRooms reg) : NoEmptyRooms (mapDelete reg k) := by
  intro p hp
  exact hreg p (mem_of_mem_mapDelete reg k p hp)

theorem noEmptyRooms_bind (reg : Registry) (roomId : String) (c : Conn)
    (hreg : NoEmptyRooms reg) : NoEmptyRooms (bind reg roomId c) := by
  unfold bind
  cases hm : mapGet reg roomId with
  | none => exact noEmptyRooms_mapSet reg roomId _ hreg (addConn_ne_nil [] c)
  | some ms => exact noEmptyRooms_mapSet reg roomId _ hreg (addConn_ne_nil ms c)

theorem noEmptyRooms_unbind (reg : Registry) (roomId : String) (c : Conn)
    (hreg : NoEmptyRooms reg) : NoEmptyRooms (unbind reg roomId c) := by
  unfold unbind
  cases hm : mapGet reg roomId with
  | none => exact hreg
  | some ms =>
    by_cases he : (ms.erase c).isEmpty
    · simpa [he] using noEmptyRooms_mapDelete reg roomId hreg
    · have hne : ms.erase c ≠ [] := by
        intro hnil
        rw [hnil] at he
        exact he rfl
      simpa [he] using noEmptyRooms_mapSet reg roomId (ms.erase c) hreg hne

theorem noEmptyRooms_onConnection (reg : Registry) (pathname : String) (c : Conn)
    (hreg : NoEmptyRooms reg) : NoEmptyRooms (onConnection reg pathname c).1 := by
  unfold onConnection
  by_cases he : (extractRoomId pathname).isEmpty
  · simpa [he] using hreg
  · simpa [he] using noEmptyRooms_bind reg (extractRoomId pathname) c hreg

theorem noEmptyRooms_step (reg : Registry) (e : Event)
    (hreg : NoEmptyRooms reg) : NoEmptyRooms (step reg e) := by
  cases e with
  | connect pathname c => exact noEmptyRooms_onConnection reg pathname c hreg
  | message roomId sender m =>
    simpa [step, onMessage_fst] using hreg
  | close roomId c => exact noEmptyRooms_unbind reg roomId c hreg
  | endReq roomId => exact noEmptyRooms_mapDelete reg roomId hreg
  | health => exact hreg

theorem noEmptyRooms_foldl (es : List Event) (reg : Registry)
    (hreg : NoEmptyRooms reg) : NoEmptyRooms (es.foldl step reg) := by
  induction es generalizing reg with
  | nil => exact hreg
  | cons e rest ih => exact ih (step reg e) (noEmptyRooms_step reg e hreg)

theorem noEmptyRooms_run (es : List Event) : NoEmptyRooms (run es) := by
  have : NoEmptyRooms ([] : Registry) := by intro p hp; cases hp
  exact noEmptyRooms_foldl es [] this

theorem mapGet_ne_nil_of_noEmptyRooms (reg : Registry) (r : String) (ms : List Conn)
    (hreg : NoEmptyRooms reg) (hm : mapGet reg r = some ms) : ms ≠ [] := by
  induction reg with
  | nil => simp [mapGet] at hm
  | cons p rest ih =>
    by_cases h : p.1 = r
    · simp only [mapGet, if_pos h, Option.some.injEq] at hm
      exact hm ▸ hreg p (List.mem_cons_self _ _)
    · simp only [mapGet, if_neg h] at hm
      exact ih (fun q hq => hreg q (List.mem_cons_of_mem _ hq)) hm

theorem filter_nonEmpty_of_noEmptyRooms (reg : Registry)
    (hreg : NoEmptyRooms reg) :
    reg.filter (fun p => !p.2.isEmpty) = reg := by
  induction reg with
  | nil => rfl
  | cons p rest ih =>
    have hp : p.2 ≠ [] := hreg p (List.mem_cons_self _ _)
    have hb : (!p.2.isEmpty) = true := by
      cases h2 : p.2 with
      | nil => exact absurd h2 hp
      | cons a l => rfl
    have ih2 := ih (fun q hq => hreg q (List.mem_cons_of_mem _ hq))
    simp only [List.filter_cons, hb, if_true, ih2]

/-! Lemmas about the broadcast loop of the message handler. -/

theorem forwardLoop_sound (sender : Conn) (m : Msg) (ms : List Conn) :
    ∀ p ∈ (forwardLoop sender m ms).1,
      p.1 ∈ ms ∧ p.1 ≠ sender ∧ p.1.readyState = WebSocket.OPEN ∧ p.2 = sentFrame m := by
  induction ms with
  | nil => intro p hp; simp [forwardLoop] at hp
  | cons c rest ih =>
    intro p hp
    by_cases h1 : c ≠ sender ∧ c.readyState = WebSocket.OPEN
    · by_cases h2 : c.sendOk = true
      · simp only [forwardLoop, if_pos h1, h2, if_true] at hp
        rcases List.mem_cons.mp hp with h3 | h3
        · rw [h3]
          exact ⟨List.mem_cons_self _ _, h1.1, h1.2, rfl⟩
        · have h4 := ih p h3
          exact ⟨List.mem_cons_of_mem _ h4.1, h4.2⟩
      · have h2f : c.sendOk = false := by
          cases h5 : c.sendOk
          · rfl
          · exact absurd h5 h2
        simp [forwardLoop, if_pos h1, h2f] at hp
    · simp only [forwardLoop, if_neg h1] at hp
      have h4 := ih p hp
      exact ⟨List.mem_cons_of_mem _ h4.1, h4.2⟩

theorem forwardLoop_complete (sender : Conn) (m : Msg) (ms : List Conn)
    (hok : ∀ c ∈ ms, c.readyState = WebSocket.OPEN → c.sendOk = true) :
    ∀ c ∈ ms, c ≠ sender → c.readyState = WebSocket.OPEN →
      (c, sentFrame m) ∈ (forwardLoop sender m ms).1 := by
  induction ms with
  | nil => intro c hc; cases hc
  | cons d rest ih =>
    intro c hc hne hopen
    by_cases h1 : d ≠ sender ∧ d.readyState = WebSocket.OPEN
    · have h2 : d.sendOk = true := hok d (List.mem_cons_self _ _) h1.2
      simp only [forwardLoop, if_pos h1, h2, if_true]
      rcases List.mem_cons.mp hc with h3 | h3
      · rw [h3]
        exact List.mem_cons_self _ _
      · exact List.mem_cons_of_mem _
          (ih (fun x hx => hok x (List.mem_cons_of_mem _ hx)) c h3 hne hopen)
    · rcases List.mem_cons.mp hc with h3 | h3
      · exact absurd ⟨h3 ▸ hne, h3 ▸ hopen⟩ h1
      · simp only [forwardLoop, if_neg h1]
        exact ih (fun x hx => hok x (List.mem_cons_of_mem _ hx)) c h3 hne hopen

/-! Lemmas about the notification loop of the end-room endpoint. -/

theorem endRoomLoop_all_open (ms : List Conn)
    (hopen : ∀ c ∈ ms, c.readyState = WebSocket.OPEN ∧ c.sendOk = true) :
    ∀ a b, endRoomLoop (a, b) ms = (a + ms.length, b) := by
  induction ms with
  | nil => intro a b; simp [endRoomLoop]
  | cons c rest ih =>
    intro a b
    have hc := hopen c (List.mem_cons_self _ _)
    simp only [endRoomLoop, if_pos hc.1, hc.2, if_true]
    rw [ih (fun x hx => hopen x (List.mem_cons_of_mem _ hx)) (a + 1) b]
    have harith : a + 1 + rest.length = a + (c :: rest).length := by
      simp only [List.length_cons]
      omega
    rw [harith]

theorem endRoomLoop_shift (ms : List Conn) :
    ∀ a b, endRoomLoop (a, b) ms
      = (a + (endRoomLoop (0, 0) ms).1, b + (endRoomLoop (0, 0) ms).2) := by
  induction ms with
  | nil => intro a b; simp [endRoomLoop]
  | cons c rest ih =>
    intro a b
    by_cases h1 : c.readyState = WebSocket.OPEN
    · by_cases h2 : c.sendOk = true
      · simp only [endRoomLoop, if_pos h1, h2, if_true]
        rw [ih (a + 1) b, ih 1 0]
        simp only [Prod.mk.injEq]
        constructor <;> omega
      · have h2f : c.sendOk = false := by
          cases h5 : c.sendOk
          · rfl
          · exact absurd h5 h2
        simp only [endRoomLoop, if_pos h1, h2f, Bool.false_eq_true, if_false]
        rw [ih a b]
    · simp only [endRoomLoop, if_neg h1]
      rw [ih a (b + 1), ih 0 1]
      simp only [Prod.mk.injEq]
      constructor <;> omega

theorem endRoomLoop_le (ms : List Conn) :
    (endRoomLoop (0, 0) ms).1 + (endRoomLoop (0, 0) ms).2 ≤ ms.length := by
  induction ms with
  | nil => simp [endRoomLoop]
  | cons c rest ih =>
    by_cases h1 : c.readyState = WebSocket.OPEN
    · by_cases h2 : c.sendOk = true
      · simp only [endRoomLoop, if_pos h1, h2, if_true]
        rw [endRoomLoop_shift rest 1 0]
        simp only [List.length_cons]
        omega
      · have h2f : c.sendOk = false := by
          cases h5 : c.sendOk
          · rfl
          · exact absurd h5 h2
        simp only [endRoomLoop, if_pos h1, h2f, Bool.false_eq_true, if_false]
        simp only [List.length_cons]
        omega
    · simp only [endRoomLoop, if_neg h1]
      rw [endRoomLoop_shift rest 0 1]
      simp only [List.length_cons]
      omega

theorem endRoomLoop_total (ms : List Conn)
    (hok : ∀ c ∈ ms, c.readyState = WebSocket.OPEN → c.sendOk = true) :
    (endRoomLoop (0, 0) ms).1 + (endRoomLoop (0, 0) ms).2 = ms.length := by
  induction ms with
  | nil => simp [endRoomLoop]
  | cons c rest ih =>
    have ih2 := ih (fun x hx => hok x (List.mem_cons_of_mem _ hx))
    by_cases h1 : c.readyState = WebSocket.OPEN
    · have h2 : c.sendOk = true := hok c (List.mem_cons_self _ _) h1
      simp only [endRoomLoop, if_pos h1, h2, if_true]
      rw [endRoomLoop_shift rest 1 0]
      simp only [List.length_cons]
      omega
    · simp only [endRoomLoop, if_neg h1]
      rw [endRoomLoop_shift rest 0 1]
      simp only [List.length_cons]
      omega

/-! The claims. -/

/-- C1: terminating a room that is present in the registry, all of whose
members have open, functioning transports, returns a success summary with
notifiedClients = n, closedClients = 0 and totalClients = n, and afterwards
the room is absent from the registry, so membership queries return the empty
set. -/
theorem end_room_completeness (reg : Registry) (roomId : String) (ms : List Conn)
    (hms : mapGet reg roomId = some ms)
    (hopen : ∀ c ∈ ms, c.readyState = WebSocket.OPEN ∧ c.sendOk = true) :
    (endRoom reg roomId).2.success = true
    ∧ (endRoom reg roomId).2.notifiedClients = ms.length
    ∧ (endRoom reg roomId).2.closedClients = 0
    ∧ (endRoom reg roomId).2.totalClients = ms.length
    ∧ mapGet (endRoom reg roomId).1 roomId = none
    ∧ members (endRoom reg roomId).1 roomId = [] := by
  have hc : (mapGet reg roomId).getD [] = ms := by
    rw [hms]
    rfl
  have hloop := endRoomLoop_all_open ms hopen 0 0
  have hdel := mapGet_mapDelete reg roomId
  refine ⟨rfl, ?_, ?_, ?_, hdel, ?_⟩
  · show (endRoomLoop (0, 0) ((mapGet reg roomId).getD [])).1 = ms.length
    rw [hc, hloop]
    exact Nat.zero_add ms.length
  · show (endRoomLoop (0, 0) ((mapGet reg roomId).getD [])).2 = 0
    rw [hc, hloop]
  · show ((mapGet reg roomId).getD []).length = ms.length
    rw [hc]
  · show (mapGet (mapDelete reg roomId) roomId).getD [] = []
    rw [hdel]
    rfl

/-- C1 witness: ending room "r" with two open members yields the summary
(notified 2, closed 0, total 2) and removes the room. -/
theorem end_room_completeness_w :
    (endRoom [("r", [(⟨0, 1, true⟩ : Conn), ⟨1, 1, true⟩])] "r").2.notifiedClients = 2
    ∧ (endRoom [("r", [(⟨0, 1, true⟩ : Conn), ⟨1, 1, true⟩])] "r").2.closedClients = 0
    ∧ (endRoom [("r", [(⟨0, 1, true⟩ : Conn), ⟨1, 1, true⟩])] "r").2.totalClients = 2
    ∧ mapGet (endRoom [("r", [(⟨0, 1, true⟩ : Conn), ⟨1, 1, true⟩])] "r").1 "r" = none := by
  have h := end_room_completeness [("r", [⟨0, 1, true⟩, ⟨1, 1, true⟩])] "r"
    [⟨0, 1, true⟩, ⟨1, 1, true⟩] (by decide) (by decide)
  exact ⟨h.2.1, h.2.2.1, h.2.2.2.1, h.2.2.2.2.1⟩

/-- C2 counterexample: rooms "A" = {⟨0⟩ the sender, ⟨1⟩ open with a throwing
send, ⟨2⟩ open and functioning} and "B" = {⟨3⟩}, with "A" ≠ "B".  Member ⟨2⟩
of room "A" is open and is not the sender, yet the message from ⟨0⟩ produces
no delivery at all — the throw on the send to ⟨1⟩ aborts the loop — refuting
"forwarded to every other member of A whose transport is open". -/
theorem message_not_delivered_to_open_member :
    (onMessage [("A", [⟨0, 1, true⟩, ⟨1, 1, false⟩, ⟨2, 1, true⟩]), ("B", [⟨3, 1, true⟩])]
        "A" ⟨0, 1, true⟩ ⟨false, [7]⟩).2.1 = []
    ∧ (⟨2, 1, true⟩ : Conn) ∈
        members [("A", [⟨0, 1, true⟩, ⟨1, 1, false⟩, ⟨2, 1, true⟩]), ("B", [⟨3, 1, true⟩])] "A"
    ∧ (⟨2, 1, true⟩ : Conn).readyState = WebSocket.OPEN
    ∧ (⟨2, 1, true⟩ : Conn) ≠ ⟨0, 1, true⟩
    ∧ ("A" : String) ≠ "B" := by
  decide

/-- C2 amended: for rooms A ≠ B whose member sets are disjoint, a message
sent by member C of room A is forwarded to every other member of A whose
transport is open provided no send to a member of A throws (a throwing send
aborts delivery to the members not yet reached); unconditionally, nothing is
ever delivered back to C and nothing is ever delivered to a member of B. -/
theorem message_exclude_sender_and_isolation
    (reg : Registry) (A B : String) (sender : Conn) (m : Msg)
    (_hAB : A ≠ B)
    (hdisj : ∀ c ∈ members reg B, c ∉ members reg A) :
    ((∀ c ∈ members reg A, c.readyState = WebSocket.OPEN → c.sendOk = true) →
      ∀ c ∈ members reg A, c ≠ sender → c.readyState = WebSocket.OPEN →
        (c, sentFrame m) ∈ (onMessage reg A sender m).2.1)
    ∧ (∀ p ∈ (onMessage reg A sender m).2.1, p.1 ≠ sender)
    ∧ (∀ c ∈ members reg B, ∀ p ∈ (onMessage reg A sender m).2.1, p.1 ≠ c) := by
  cases hm : mapGet reg A with
  | none =>
    refine ⟨?_, ?_, ?_⟩
    · intro _ c hc
      simp [members, hm] at hc
    · intro p hp
      simp [onMessage, hm] at hp
    · intro c _ p hp
      simp [onMessage, hm] at hp
  | some ms =>
    have hmem : members reg A = ms := by simp [members, hm]
    refine ⟨?_, ?_, ?_⟩
    · intro hok c hc hne hopen
      simp only [onMessage, hm]
      exact forwardLoop_complete sender m ms (hmem ▸ hok) c (hmem ▸ hc) hne hopen
    · intro p hp
      simp only [onMessage, hm] at hp
      exact (forwardLoop_sound sender m ms p hp).2.1
    · intro c hc p hp
      simp only [onMessage, hm] at hp
      intro hpc
      have hpa : p.1 ∈ ms := (forwardLoop_sound sender m ms p hp).1
      exact hdisj c hc (hmem ▸ (hpc ▸ hpa))

/-- C2 amended witness: in registry with rooms A = {c0, c1} and B = {c2}, no
send throws, and the message from c0 in room A is delivered to c1 (as the
binary frame the code sends). -/
theorem message_exclude_sender_and_isolation_w :
    ((⟨1, 1, true⟩ : Conn), sentFrame (⟨false, [7]⟩ : Msg)) ∈
      (onMessage [("A", [⟨0, 1, true⟩, ⟨1, 1, true⟩]), ("B", [⟨2, 1, true⟩])]
        "A" ⟨0, 1, true⟩ ⟨false, [7]⟩).2.1 :=
  (message_exclude_sender_and_isolation
      [("A", [⟨0, 1, true⟩, ⟨1, 1, true⟩]), ("B", [⟨2, 1, true⟩])] "A" "B"
      ⟨0, 1, true⟩ ⟨false, [7]⟩ (by decide) (by decide)).1
    (by decide) ⟨1, 1, true⟩ (by decide) (by decide) (by decide)

/-- C4: at this concrete input the type-preservation half of the claim fails
on the code.  An inbound text frame (isBinary = false) with bytes [1, 2] sent
in room "r" is delivered to the other member as a binary frame (isBinary =
true): the handler ignores ws 8's isBinary parameter and re-sends the Buffer,
which send frames as binary by default.  The payload bytes are preserved, the
frame type is not. -/
theorem text_frame_forwarded_as_binary :
    (onMessage [("r", [⟨0, 1, true⟩, ⟨1, 1, true⟩])] "r"
        ⟨0, 1, true⟩ ⟨false, [1, 2]⟩).2.1
      = [(⟨1, 1, true⟩, ⟨true, [1, 2]⟩)]
    ∧ (⟨false, [1, 2]⟩ : Msg).isBinary = false := by
  decide

/-- C5: at this concrete input the claim fails on the code.  Room "r" holds
the sender ⟨0⟩ and then members ⟨1⟩ (open, send throws) and ⟨2⟩ (open,
functioning), in insertion order.  The forwarding loop has no try/catch, so
the throw on the send to ⟨1⟩ aborts the iteration: no delivery is made —
in particular the remaining member ⟨2⟩ receives nothing — and the exception
escapes the handler. -/
theorem forwarding_send_failure_aborts_broadcast :
    (onMessage [("r", [⟨0, 1, true⟩, ⟨1, 1, false⟩, ⟨2, 1, true⟩])] "r"
      ⟨0, 1, true⟩ ⟨true, [1, 2]⟩).2 = ([], true) := by decide

/-- C6 counterexample: a connection to target /a/b is bound to room "a/b"
(the entire path after the leading slash), not to room "a" as the claim
states. -/
theorem connect_two_segment_path_counterexample :
    (onConnection [] "/a/b" ⟨0, 1, true⟩).2 = none
    ∧ members (onConnection [] "/a/b" ⟨0, 1, true⟩).1 "a" = []
    ∧ members (onConnection [] "/a/b" ⟨0, 1, true⟩).1 "a/b" = [⟨0, 1, true⟩] := by
  decide

/-- C6 amended: for every accepted connection, the room identifier it is
bound to is the entire requested target path after the leading separator. -/
theorem accepted_connection_binds_full_path (reg : Registry) (pathname : String)
    (c : Conn) (h : (onConnection reg pathname c).2 = none) :
    c ∈ members (onConnection reg pathname c).1 (extractRoomId pathname) := by
  by_cases he : (extractRoomId pathname).isEmpty
  · simp [onConnection, he] at h
  · simp only [onConnection, he, if_false]
    exact mem_members_bind reg (extractRoomId pathname) c

/-- C6 amended witness: the accepted connection to /a/b is a member of room
"a/b" afterwards. -/
theorem accepted_connection_binds_full_path_w :
    (⟨0, 1, true⟩ : Conn) ∈
      members (onConnection [] "/a/b" ⟨0, 1, true⟩).1 (extractRoomId "/a/b") :=
  accepted_connection_binds_full_path [] "/a/b" ⟨0, 1, true⟩ (by decide)

/-- C7: a connection whose target path yields an empty room identifier is
closed with code 1008 and reason "Room ID required", the registry is left
unchanged, and in particular no room's member set gains the connection. -/
theorem empty_room_id_rejected (reg : Registry) (pathname : String) (c : Conn)
    (h : extractRoomId pathname = "") :
    onConnection reg pathname c = (reg, some (1008, "Room ID required"))
    ∧ ∀ r, members (onConnection reg pathname c).1 r = members reg r := by
  have he : (extractRoomId pathname).isEmpty = true := by
    rw [h]
    rfl
  constructor
  · simp [onConnection, he]
  · intro r
    simp [onConnection, he]

/-- C7 witness: a connection to target / is rejected with (1008, "Room ID
required") and the registry stays empty. -/
theorem empty_room_id_rejected_w :
    onConnection [] "/" ⟨0, 1, true⟩ = ([], some (1008, "Room ID required")) :=
  (empty_room_id_rejected [] "/" ⟨0, 1, true⟩ (by decide)).1

/-- C8: terminating a room identifier that is absent from the registry is not
an error: the endpoint answers with the zero-count success summary and the
registry is unchanged. -/
theorem end_unknown_room_zero_summary (reg : Registry) (roomId : String)
    (h : mapGet reg roomId = none) :
    endRoom reg roomId = (reg, ⟨true, 0, 0, 0⟩) := by
  simp [endRoom, h, endRoomLoop, mapDelete_of_absent reg roomId h]

/-- C8 witness: ending the unknown room "r" leaves the registry (holding only
room "q") unchanged and returns all-zero counts. -/
theorem end_unknown_room_zero_summary_w :
    endRoom [("q", [(⟨0, 1, true⟩ : Conn)])] "r"
      = ([("q", [(⟨0, 1, true⟩ : Conn)])], ⟨true, 0, 0, 0⟩) :=
  end_unknown_room_zero_summary [("q", [⟨0, 1, true⟩])] "r" (by decide)

/-- C9: message forwarding and the health query leave the registry — its set
of rooms and every member set — unchanged. -/
theorem forwarding_and_health_preserve_registry
    (reg : Registry) (roomId : String) (sender : Conn) (m : Msg) :
    (onMessage reg roomId sender m).1 = reg ∧ (healthCheck reg).1 = reg :=
  ⟨onMessage_fst reg roomId sender m, rfl⟩

/-- C10: the end-room summary counts partition the member snapshot:
totalClients is the snapshot size, notified + closed never exceeds the total,
and they are equal whenever no individual send throws. -/
theorem end_room_counts_partition (reg : Registry) (roomId : String) :
    (endRoom reg roomId).2.totalClients = (members reg roomId).length
    ∧ (endRoom reg roomId).2.notifiedClients + (endRoom reg roomId).2.closedClients
        ≤ (endRoom reg roomId).2.totalClients
    ∧ ((∀ c ∈ members reg roomId, c.readyState = WebSocket.OPEN → c.sendOk = true) →
        (endRoom reg roomId).2.notifiedClients + (endRoom reg roomId).2.closedClients
          = (endRoom reg roomId).2.totalClients) := by
  refine ⟨rfl, ?_, ?_⟩
  · simpa only [endRoom, members] using endRoomLoop_le ((mapGet reg roomId).getD [])
  · intro hok
    simpa only [endRoom, members] using
      endRoomLoop_total ((mapGet reg roomId).getD []) (by simpa [members] using hok)

/-- C10 witness: for room "r" with one open member and one closed member, no
send throws and notified + closed = total = 2. -/
theorem end_room_counts_partition_w :
    (endRoom [("r", [(⟨0, 1, true⟩ : Conn), ⟨1, 0, true⟩])] "r").2.notifiedClients
        + (endRoom [("r", [(⟨0, 1, true⟩ : Conn), ⟨1, 0, true⟩])] "r").2.closedClients
      = (endRoom [("r", [(⟨0, 1, true⟩ : Conn), ⟨1, 0, true⟩])] "r").2.totalClients :=
  (end_room_counts_partition [("r", [⟨0, 1, true⟩, ⟨1, 0, true⟩])] "r").2.2 (by decide)

/-- C3: after any sequence of events from process start, the registry never
holds an entry with an empty member set, a room identifier is present exactly
when it has at least one member, and the health report's room count equals
the number of non-empty rooms. -/
theorem registry_never_holds_empty_rooms (es : List Event) :
    NoEmptyRooms (run es)
    ∧ (∀ r, (mapGet (run es) r).isSome = true ↔ members (run es) r ≠ [])
    ∧ (healthCheck (run es)).2
        = ((run es).filter (fun p => !p.2.isEmpty)).length := by
  have hinv := noEmptyRooms_run es
  refine ⟨hinv, ?_, ?_⟩
  · intro r
    constructor
    · intro h
      cases hm : mapGet (run es) r with
      | none => rw [hm] at h; simp at h
      | some ms =>
        have hne := mapGet_ne_nil_of_noEmptyRooms (run es) r ms hinv hm
        simp [members, hm, hne]
    · intro h
      cases hm : mapGet (run es) r with
      | none =>
        exfalso
        apply h
        simp [members, hm]
      | some ms => simp [hm]
  · rw [filter_nonEmpty_of_noEmptyRooms (run es) hinv]
    rfl

end WsRelay
